import Mathlib

/-!
Verification of the zmes-parser core (cheminfo/zmes-parser).

This file gives a shallow embedding, in Lean, of the repository's core
functions, translated from the TypeScript sources:

  - `src/decodeBlob.ts`   : `decodeBlob`, `findMarker`
  - `src/readParameterTree.ts` : `buildParameterTree` (type registry lookup,
    node linking, root pick and recursive sibling-index sort)
  - `src/readParameterData.ts` : `extractValue`, `convertNode`
  - `src/findParameter.ts` : `findParameter`, `findParameterDeep`
  - `src/toMeasurementXY.ts` : `buildVariables`, `extractTitle`,
    `extractMeta`, `extractSettings`, `toMeasurementXY`

Modelling conventions:
  - Bytes are `Nat` (values 0..255 in practice; no arithmetic ever wraps).
  - A JavaScript IEEE-754 double obtained from `DataView.getFloat64` is
    modelled by its 8-byte little-endian bit pattern assembled into a `Nat`
    (the bit pattern determines the double and vice versa; the code never
    computes with the numeric value, it only moves it around).
  - Scalar numeric database columns are modelled by `Int` (again the code
    only moves these values, never computes with them).
  - `null`/`undefined`-able values are `Option`; thrown errors are the
    `Except` error constructors.
  - JavaScript `Map` objects built from rows with distinct keys preserve
    insertion order, so they are modelled by the underlying row list
    (database `Id` columns are primary keys, hence distinct); registry
    lookup where a later `set` would win is modelled by a left fold.
-/

namespace Zmes

/-! ## Binary array decoder (src/decodeBlob.ts) -/

/-- The 6-byte marker preceding each double (`ENTRY_MARKER` in the source). -/
def ENTRY_MARKER : List Nat := [0x06, 0x01, 0x01, 0x01, 0x02, 0x01]

/-- Total bytes per entry: 6 marker bytes + 8 bytes for the double. -/
def ENTRY_SIZE : Nat := 14

/-- Whether the marker occurs in `blob` at byte offset `i`
(the inner comparison loop of `findMarker`).  Out-of-range reads yield 0,
which never equals a marker byte, so a match implies all six bytes exist. -/
def matchesAt (blob : List Nat) (i : Nat) : Bool :=
  (List.range ENTRY_MARKER.length).all fun j =>
    blob.getD (i + j) 0 == ENTRY_MARKER.getD j 0

/-- Byte offset of the first occurrence of the marker, scanning
`i = 0 .. blob.length - 6` (the source returns `-1`, modelled as `none`;
when `blob.length < 6` the scan range is empty, matching the JS loop whose
upper bound is then negative). -/
def findMarker (blob : List Nat) : Option Nat :=
  (List.range (blob.length + 1 - ENTRY_MARKER.length)).find? (matchesAt blob)

/-- The 64-bit little-endian word starting at `off`
(models `dataView.getFloat64(off, true)` by its bit pattern). -/
def getFloat64LE (blob : List Nat) (off : Nat) : Nat :=
  (List.range 8).foldr (fun j acc => acc * 256 + blob.getD (off + j) 0) 0

/-- Decode a serialized `System.Double[]` blob: find the first marker, then
read `floor(remaining / 14)` doubles at stride 14, each 6 bytes past its
marker (`decodeBlob` in the source). -/
def decodeBlob (blob : List Nat) : List Nat :=
  match findMarker blob with
  | none => []
  | some markerOffset =>
    let count := (blob.length - markerOffset) / ENTRY_SIZE
    (List.range count).map fun i =>
      getFloat64LE blob (markerOffset + i * ENTRY_SIZE + 6)

/-! ### Auxiliary list lemmas for the decoder -/

/-- Helper: `find?` on an append tries the left list first. -/
theorem find?_append_eq {α : Type} (l₁ l₂ : List α) (p : α → Bool) :
    (l₁ ++ l₂).find? p =
      match l₁.find? p with
      | some a => some a
      | none => l₂.find? p := by
  induction l₁ with
  | nil => simp
  | cons a l ih =>
    by_cases h : p a
    · simp [List.find?, h]
    · simp only [Bool.not_eq_true] at h
      simp [List.find?, h, ih]

/-- Helper: a successful `find?` over `List.range` returns an index at which
the predicate holds and before which it everywhere fails. -/
theorem range_find?_first {f : Nat → Bool} :
    ∀ {n a : Nat}, (List.range n).find? f = some a →
      f a = true ∧ ∀ b < a, f b = false := by
  intro n
  induction n with
  | zero => intro a h; simp at h
  | succ n ih =>
    intro a h
    rw [List.range_succ, find?_append_eq] at h
    cases hn : (List.range n).find? f with
    | some c =>
      rw [hn] at h
      cases h
      exact ih hn
    | none =>
      rw [hn] at h
      have hall : ∀ b ∈ List.range n, ¬ f b = true := List.find?_eq_none.mp hn
      by_cases hf : f n
      · simp [List.find?, hf] at h
        subst h
        refine ⟨hf, fun b hb => ?_⟩
        have : ¬ f b = true := hall b (List.mem_range.mpr hb)
        simpa using this
      · simp [List.find?, hf] at h

/-! ## Output parameter values and tree (src/types.ts) -/

/-- A JavaScript value stored in `ZmesParameter.value`
(`boolean | number | string | Float64Array` in the source).  Scalar numbers
are modelled by `Int`, a `Float64Array` by the list of 64-bit little-endian
words of its elements. -/
inductive JSValue : Type where
  | bool (b : Bool)
  | num (n : Int)
  | str (s : String)
  | arr (xs : List Nat)
deriving DecidableEq, Repr

/-- A parameter node in the output measurement tree (`ZmesParameter`).
The `value` and `children` fields are optional exactly as in the source. -/
inductive ZmesParameter : Type where
  | mk (name : String) (urn : String) (value : Option JSValue)
      (children : Option (List ZmesParameter))

/-- Name field of a parameter. -/
def ZmesParameter.name : ZmesParameter → String
  | .mk n _ _ _ => n

/-- Urn field of a parameter. -/
def ZmesParameter.urn : ZmesParameter → String
  | .mk _ u _ _ => u

/-- Value field of a parameter. -/
def ZmesParameter.value : ZmesParameter → Option JSValue
  | .mk _ _ v _ => v

/-- Children field of a parameter. -/
def ZmesParameter.children : ZmesParameter → Option (List ZmesParameter)
  | .mk _ _ _ cs => cs

/-! ## Tree search (src/findParameter.ts) -/

/-- Find a parameter by name among direct children only
(`findParameter` in the source). -/
def findParameter (children : List ZmesParameter) (name : String) :
    Option ZmesParameter :=
  children.find? fun child => child.name == name

mutual

/-- Recursively search for a parameter by name: the node itself first, then
each child subtree in order, returning the first match
(`findParameterDeep` in the source; when `children` is absent the search
stops at the node). -/
def findParameterDeep : ZmesParameter → String → Option ZmesParameter
  | .mk n u v ocs, name =>
    if n = name then some (.mk n u v ocs)
    else
      match ocs with
      | none => none
      | some cs => findDeepInList cs name

/-- The child-iteration loop of `findParameterDeep`: try each subtree in
order, short-circuiting on the first hit. -/
def findDeepInList : List ZmesParameter → String → Option ZmesParameter
  | [], _ => none
  | c :: rest, name =>
    match findParameterDeep c name with
    | some found => some found
    | none => findDeepInList rest name

end

mutual

/-- Pre-order listing of all nodes of a parameter tree: the node itself,
then the nodes of each child subtree in order (a specification device used
to characterise `findParameterDeep`). -/
def preorder : ZmesParameter → List ZmesParameter
  | .mk n u v ocs =>
    ZmesParameter.mk n u v ocs ::
      (match ocs with
       | none => []
       | some cs => preorderList cs)

/-- Pre-order listing of a forest, left to right. -/
def preorderList : List ZmesParameter → List ZmesParameter
  | [] => []
  | c :: rest => preorder c ++ preorderList rest

end

/-- Helper: the child loop agrees with first-match search of the pre-order
forest listing, assuming it does for every tree in the forest. -/
theorem findDeepInList_eq_preorderList (name : String) :
    ∀ (cs : List ZmesParameter),
      (∀ c ∈ cs,
        findParameterDeep c name = (preorder c).find? fun q => q.name == name) →
      findDeepInList cs name =
        (preorderList cs).find? fun q => q.name == name := by
  intro cs
  induction cs with
  | nil =>
    intro _
    simp [findDeepInList, preorderList]
  | cons c rest ih =>
    intro h
    simp only [findDeepInList, preorderList]
    rw [find?_append_eq, h c (by simp)]
    cases (preorder c).find? fun q => q.name == name with
    | some a => rfl
    | none => exact ih fun x hx => h x (by simp [hx])

/-- Helper: `findParameterDeep` is first-match search of the pre-order node
listing (proved by strong induction on the tree size). -/
theorem findParameterDeep_eq_preorder :
    ∀ (N : Nat) (p : ZmesParameter), sizeOf p ≤ N → ∀ (name : String),
      findParameterDeep p name = (preorder p).find? fun q => q.name == name := by
  intro N
  induction N with
  | zero =>
    intro p hp
    cases p with
    | mk n u v ocs =>
      simp only [ZmesParameter.mk.sizeOf_spec] at hp
      omega
  | succ N ih =>
    intro p
    cases p with
    | mk n u v ocs =>
      cases ocs with
      | none =>
        intro hp name
        simp only [findParameterDeep, preorder]
        by_cases h : n = name
        · simp [List.find?, ZmesParameter.name, h]
        · have hb : (n == name) = false := by simp [h]
          simp [List.find?, ZmesParameter.name, h, hb]
      | some cs =>
        intro hp name
        simp only [findParameterDeep, preorder]
        by_cases h : n = name
        · simp [List.find?, ZmesParameter.name, h]
        · rw [if_neg h]
          have hpred : ((ZmesParameter.mk n u v (some cs)).name == name)
              = false := by
            simp [ZmesParameter.name, h]
          rw [List.find?_cons, hpred]
          exact findDeepInList_eq_preorderList name cs fun c hc =>
            ih c
              (by
                have h1 : sizeOf c < sizeOf cs := List.sizeOf_lt_of_mem hc
                simp only [ZmesParameter.mk.sizeOf_spec,
                  Option.some.sizeOf_spec] at hp
                omega)
              name

/-! ## Claims about the decoder and the tree search -/

/-- C1: for every blob in which the 6-byte marker occurs (so `findMarker`
returns its first offset), `decodeBlob` returns exactly
`floor((blob length - marker offset) / 14)` doubles, the i-th being the
8-byte little-endian double read at `markerOffset + i*14 + 6`; trailing
bytes that do not fill a 14-byte stride contribute nothing. -/
theorem C1_decodeBlob_stride (blob : List Nat) (off : Nat)
    (h : findMarker blob = some off) :
    matchesAt blob off = true ∧
    (∀ j < off, matchesAt blob j = false) ∧
    (decodeBlob blob).length = (blob.length - off) / ENTRY_SIZE ∧
    ∀ i < (blob.length - off) / ENTRY_SIZE,
      (decodeBlob blob)[i]? =
        some (getFloat64LE blob (off + i * ENTRY_SIZE + 6)) := by
  have hfind : (List.range (blob.length + 1 - ENTRY_MARKER.length)).find?
      (matchesAt blob) = some off := h
  have hfirst := range_find?_first hfind
  refine ⟨hfirst.1, hfirst.2, ?_, ?_⟩
  · simp [decodeBlob, h]
  · intro i hi
    simp [decodeBlob, h, List.getElem?_map, List.getElem?_range, hi]

/-- Concrete instance of C1: two padding bytes, one marker, one double. -/
def blobW : List Nat :=
  [0, 0, 0x06, 0x01, 0x01, 0x01, 0x02, 0x01, 1, 2, 3, 4, 5, 6, 7, 8]

/-- Witness for C1 at a concrete blob: the marker is found at offset 2 and
exactly one double is decoded. -/
theorem C1_decodeBlob_stride_witness :
    findMarker blobW = some 2 ∧ (decodeBlob blobW).length = 1 :=
  ⟨by decide, by simpa using (C1_decodeBlob_stride blobW 2 (by decide)).2.2.1⟩

/-- C7: `decodeBlob` is a total function (the model never raises); on an
empty blob, or a blob in which the marker occurs at no offset, it returns
the empty sequence rather than an error. -/
theorem C7_decodeBlob_no_error (blob : List Nat)
    (h : blob = [] ∨ ∀ i, matchesAt blob i = false) :
    decodeBlob blob = [] := by
  cases h with
  | inl he => subst he; rfl
  | inr hall =>
    have hnone : findMarker blob = none :=
      List.find?_eq_none.mpr fun a _ => by simp [hall a]
    simp [decodeBlob, hnone]

/-- Witness for C7: the empty blob decodes to the empty sequence. -/
theorem C7_decodeBlob_no_error_witness : decodeBlob [] = [] :=
  C7_decodeBlob_no_error [] (Or.inl rfl)

/-- C9: the shallow search returns a match only from the supplied immediate
children (an element of the list whose name equals the query, `none` when
no child matches), and the deep search equals first-match search over the
pre-order listing of the tree (node first, then child subtrees in order,
short-circuiting; `none` when no node matches). -/
theorem C9_find_shallow_deep (cs : List ZmesParameter) (name : String)
    (p : ZmesParameter) :
    (∀ r, findParameter cs name = some r → r ∈ cs ∧ r.name = name) ∧
    (findParameter cs name = none → ∀ c ∈ cs, c.name ≠ name) ∧
    findParameterDeep p name = (preorder p).find? fun q => q.name == name := by
  refine ⟨?_, ?_, findParameterDeep_eq_preorder (sizeOf p) p le_rfl name⟩
  · intro r hr
    refine ⟨List.mem_of_find?_eq_some hr, ?_⟩
    have := List.find?_some hr
    simpa using this
  · intro hnone c hc
    have := List.find?_eq_none.mp hnone c hc
    simpa using this

/-- Concrete leaf parameter named a. -/
def paramA : ZmesParameter := .mk "a" "urn:a" none none

/-- Concrete leaf parameter named b. -/
def paramB : ZmesParameter := .mk "b" "urn:b" none none

/-- Concrete two-child root parameter. -/
def paramRoot : ZmesParameter := .mk "root" "urn:root" none (some [paramA, paramB])

/-- Witness for C9 at a concrete tree: the shallow search for b hits the
second immediate child. -/
theorem C9_find_shallow_deep_witness : paramB ∈ [paramA, paramB] ∧ paramB.name = "b" :=
  (C9_find_shallow_deep [paramA, paramB] "b" paramRoot).1 paramB rfl

/-! ## Parameter tree building (src/readParameterTree.ts) -/

/-- A parameter type definition from RecordParameterTypes
(`ParameterType` in the source). -/
structure ParameterType where
  id : Nat
  guid : String
  urn : String
  friendlyName : String
  dataType : Int
  description : Option String
  dataUnitsUrn : Option String
deriving DecidableEq, Repr

/-- A raw row of RecordParameterTreeNodes as selected by the query in
`buildParameterTree` (already scoped to one RootParameterTypeId and in the
loaded order, i.e. `ORDER BY SiblingIndex`). -/
structure RawTreeRow where
  id : Nat
  parameterTypeId : Nat
  parentNodeId : Option Nat
  siblingIndex : Int
deriving DecidableEq, Repr

/-- Lookup in the type registry built by `loadParameterTypes`: the rows are
inserted into a Map in order, a later row with the same id overwriting an
earlier one, so lookup is a left fold keeping the last hit. -/
def findType (types : List ParameterType) (i : Nat) : Option ParameterType :=
  types.foldl (fun acc t => if t.id = i then some t else acc) none

/-- A tree-node row with its parameter type resolved: an entry of the
source's `nodeMap` before children are linked. -/
structure NodeEntry where
  id : Nat
  parameterTypeId : Nat
  parentNodeId : Option Nat
  siblingIndex : Int
  parameterType : ParameterType
deriving DecidableEq, Repr

/-- The two errors thrown by `buildParameterTree` (plain `Error` objects in
the source, carrying the same data in their messages). -/
inductive BuildError : Type where
  | unknownParameterType (typeId : Nat) (nodeId : Nat)
  | noRootNode
deriving DecidableEq, Repr

/-- The first loop of `buildParameterTree`: resolve each row's
parameterTypeId against the registry, in row order, throwing at the first
row whose type id is absent. -/
def resolveAll (types : List ParameterType) :
    List RawTreeRow → Except BuildError (List NodeEntry)
  | [] => .ok []
  | r :: rest =>
    match findType types r.parameterTypeId with
    | none => .error (.unknownParameterType r.parameterTypeId r.id)
    | some t =>
      match resolveAll types rest with
      | .error e => .error e
      | .ok es =>
        .ok ({ id := r.id, parameterTypeId := r.parameterTypeId,
               parentNodeId := r.parentNodeId,
               siblingIndex := r.siblingIndex, parameterType := t } :: es)

/-- The root detection of the second loop: `root = node` is re-assigned for
every null-parent node met, so the LAST null-parent entry in loaded order
is kept. -/
def pickRoot (entries : List NodeEntry) : Option NodeEntry :=
  entries.foldl (fun root e => if e.parentNodeId = none then some e else root)
    none

/-- A linked tree node (`TreeNode` in the source: the raw row fields, the
resolved parameter type, and the linked children). -/
inductive TreeNode : Type where
  | node (entry : NodeEntry) (children : List TreeNode)

/-- The non-children fields of a tree node. -/
def TreeNode.entry : TreeNode → NodeEntry
  | .node e _ => e

/-- The children list of a tree node. -/
def TreeNode.children : TreeNode → List TreeNode
  | .node _ cs => cs

/-- Row id of a tree node. -/
def TreeNode.id (t : TreeNode) : Nat := t.entry.id

/-- Sibling index of a tree node. -/
def TreeNode.siblingIndex (t : TreeNode) : Int := t.entry.siblingIndex

/-- Parent pointer of a tree node. -/
def TreeNode.parentNodeId (t : TreeNode) : Option Nat := t.entry.parentNodeId

/-- Resolved parameter type of a tree node. -/
def TreeNode.parameterType (t : TreeNode) : ParameterType :=
  t.entry.parameterType

/-- The comparator of `sortChildren`: ascending sibling index.  The JS
`toSorted((a, b) => a.siblingIndex - b.siblingIndex)` is a stable sort by
this key; `List.insertionSort` with this relation is exactly such a stable
sort. -/
def sibLE (a b : TreeNode) : Prop := a.siblingIndex ≤ b.siblingIndex

instance : DecidableRel sibLE := fun a b =>
  inferInstanceAs (Decidable (a.siblingIndex ≤ b.siblingIndex))

instance : IsTotal TreeNode sibLE :=
  ⟨fun a b => Int.le_total a.siblingIndex b.siblingIndex⟩

instance : IsTrans TreeNode sibLE :=
  ⟨fun _ _ _ hab hbc => le_trans hab hbc⟩

/-- Build the subtree below entry `e`: its children are the entries whose
parentNodeId equals `e.id` (found in loaded order, as the linking loop
pushes them), sorted by sibling index as `sortChildren` does.  Sorting at
construction is equivalent to the source's link-everything-then-recursively
-sort because the sort only permutes each children list and the comparator
reads only `siblingIndex`, which `buildNode` preserves.  The recursion is
fuelled: every parent chain below the root repeats no entry (ids are
primary keys), so fuel `entries.length` reproduces the source's recursion,
which likewise only ever visits nodes reachable from the root. -/
def buildNode (entries : List NodeEntry) : Nat → NodeEntry → TreeNode
  | 0, e => .node e []
  | fuel + 1, e =>
    .node e
      (List.insertionSort sibLE
        ((entries.filter fun c => c.parentNodeId == some e.id).map
          (buildNode entries fuel)))

/-- Build the hierarchical parameter tree (`buildParameterTree` in the
source): resolve types (first loop), link children and pick the root
(second loop), fail if no null-parent row exists, then sort recursively. -/
def buildParameterTree (types : List ParameterType)
    (rows : List RawTreeRow) : Except BuildError TreeNode :=
  match resolveAll types rows with
  | .error e => .error e
  | .ok entries =>
    match pickRoot entries with
    | none => .error .noRootNode
    | some root => .ok (buildNode entries entries.length root)

/-! ### Observers on built trees -/

mutual

/-- All row ids occurring in a built tree. -/
def TreeNode.ids : TreeNode → List Nat
  | .node e cs => e.id :: TreeNode.idsList cs

/-- All row ids occurring in a forest, left to right. -/
def TreeNode.idsList : List TreeNode → List Nat
  | [] => []
  | c :: rest => TreeNode.ids c ++ TreeNode.idsList rest

end

/-- Adjacent-pair check: strictly ascending sibling indices. -/
def strictChain : List TreeNode → Bool
  | [] => true
  | [_] => true
  | a :: b :: rest =>
    decide (a.siblingIndex < b.siblingIndex) && strictChain (b :: rest)

/-- Adjacent-pair check: non-decreasing sibling indices. -/
def leChain : List TreeNode → Bool
  | [] => true
  | [_] => true
  | a :: b :: rest =>
    decide (a.siblingIndex ≤ b.siblingIndex) && leChain (b :: rest)

mutual

/-- At every node of the tree, the children are in strictly ascending
sibling-index order. -/
def TreeNode.strictSorted : TreeNode → Bool
  | .node _ cs => strictChain cs && TreeNode.strictSortedList cs

/-- Strict sortedness at every node of every tree of a forest. -/
def TreeNode.strictSortedList : List TreeNode → Bool
  | [] => true
  | c :: rest => TreeNode.strictSorted c && TreeNode.strictSortedList rest

end

mutual

/-- At every node of the tree, the children are in non-decreasing
sibling-index order. -/
def TreeNode.sibSorted : TreeNode → Bool
  | .node _ cs => leChain cs && TreeNode.sibSortedList cs

/-- Non-decreasing sortedness at every node of every tree of a forest. -/
def TreeNode.sibSortedList : List TreeNode → Bool
  | [] => true
  | c :: rest => TreeNode.sibSorted c && TreeNode.sibSortedList rest

end

/-- Helper: a pairwise non-decreasing list passes the adjacent-pair check. -/
theorem leChain_of_pairwise :
    ∀ l : List TreeNode, List.Pairwise sibLE l → leChain l = true := by
  intro l
  induction l with
  | nil => intro _; rfl
  | cons a rest ih =>
    intro h
    cases rest with
    | nil => rfl
    | cons b rest2 =>
      rw [List.pairwise_cons] at h
      have hab : sibLE a b := h.1 b (by simp)
      have hrest : leChain (b :: rest2) = true := ih h.2
      simp only [leChain, Bool.and_eq_true, decide_eq_true_eq]
      exact ⟨hab, hrest⟩

/-- Helper: a forest all of whose trees are recursively sorted passes the
forest check. -/
theorem sibSortedList_of_all :
    ∀ cs : List TreeNode, (∀ c ∈ cs, TreeNode.sibSorted c = true) →
      TreeNode.sibSortedList cs = true := by
  intro cs
  induction cs with
  | nil => intro _; simp [TreeNode.sibSortedList]
  | cons c rest ih =>
    intro h
    simp only [TreeNode.sibSortedList, Bool.and_eq_true]
    exact ⟨h c (by simp), ih fun x hx => h x (by simp [hx])⟩

/-- Helper: every tree produced by `buildNode` is recursively sorted by
sibling index (non-decreasing). -/
theorem buildNode_sibSorted (entries : List NodeEntry) :
    ∀ (fuel : Nat) (e : NodeEntry),
      TreeNode.sibSorted (buildNode entries fuel e) = true := by
  intro fuel
  induction fuel with
  | zero =>
    intro e
    simp [buildNode, TreeNode.sibSorted, TreeNode.sibSortedList, leChain]
  | succ fuel ih =>
    intro e
    rw [show buildNode entries (fuel + 1) e =
          .node e
            (List.insertionSort sibLE
              ((entries.filter fun c => c.parentNodeId == some e.id).map
                (buildNode entries fuel))) from rfl]
    simp only [TreeNode.sibSorted, Bool.and_eq_true]
    constructor
    · exact leChain_of_pairwise _ (List.sorted_insertionSort sibLE _)
    · apply sibSortedList_of_all
      intro c hc
      rw [List.mem_insertionSort] at hc
      obtain ⟨e', _, rfl⟩ := List.mem_map.mp hc
      exact ih e'

/-- Forgetting the resolved type of an entry gives back the raw row. -/
def NodeEntry.toRow (e : NodeEntry) : RawTreeRow :=
  { id := e.id, parameterTypeId := e.parameterTypeId,
    parentNodeId := e.parentNodeId, siblingIndex := e.siblingIndex }

/-- Helper: a successful resolve pass keeps the rows (with types added). -/
theorem resolveAll_ok_map (types : List ParameterType) :
    ∀ (rows : List RawTreeRow) (entries : List NodeEntry),
      resolveAll types rows = .ok entries →
      entries.map NodeEntry.toRow = rows := by
  intro rows
  induction rows with
  | nil =>
    intro entries h
    simp only [resolveAll] at h
    cases h
    rfl
  | cons r rest ih =>
    intro entries h
    simp only [resolveAll] at h
    cases hf : findType types r.parameterTypeId with
    | none => rw [hf] at h; cases h
    | some t =>
      rw [hf] at h
      cases hr : resolveAll types rest with
      | error e => rw [hr] at h; cases h
      | ok es =>
        rw [hr] at h
        cases h
        simp only [List.map_cons, ih es hr, NodeEntry.toRow]

/-- Helper: the resolve pass fails exactly when some row references a type
id absent from the registry. -/
theorem resolveAll_error_iff (types : List ParameterType) :
    ∀ rows : List RawTreeRow,
      (∃ er, resolveAll types rows = .error er) ↔
        ∃ r ∈ rows, findType types r.parameterTypeId = none := by
  intro rows
  induction rows with
  | nil => simp [resolveAll]
  | cons r rest ih =>
    simp only [resolveAll]
    cases hf : findType types r.parameterTypeId with
    | none => simp; exact Or.inl hf
    | some t =>
      cases hr : resolveAll types rest with
      | error e =>
        simp only [List.mem_cons]
        constructor
        · intro _
          obtain ⟨x, hx, hxt⟩ := ih.mp ⟨e, hr⟩
          exact ⟨x, Or.inr hx, hxt⟩
        · intro _; exact ⟨e, rfl⟩
      | ok es =>
        simp only [List.mem_cons]
        constructor
        · intro ⟨er, her⟩; cases her
        · intro ⟨x, hx, hxt⟩
          rcases hx with rfl | hx
          · rw [hf] at hxt; cases hxt
          · obtain ⟨er, her⟩ := ih.mpr ⟨x, hx, hxt⟩
            rw [her] at hr; cases hr

/-- Helper: when every row's type id resolves, the resolve pass succeeds. -/
theorem resolveAll_ok_of (types : List ParameterType) (rows : List RawTreeRow)
    (h : ∀ r ∈ rows, findType types r.parameterTypeId ≠ none) :
    ∃ entries, resolveAll types rows = .ok entries := by
  cases hr : resolveAll types rows with
  | error e =>
    obtain ⟨x, hx, hxt⟩ := (resolveAll_error_iff types rows).mp ⟨e, hr⟩
    exact absurd hxt (h x hx)
  | ok entries => exact ⟨entries, rfl⟩

/-- The raw-row analogue of the root pick: the last null-parent row in
loaded order (what the overwriting JS loop keeps). -/
def lastNullParent (rows : List RawTreeRow) : Option RawTreeRow :=
  rows.foldl (fun root r => if r.parentNodeId = none then some r else root)
    none

/-- Helper: the root pick commutes with forgetting resolved types. -/
theorem pickRoot_toRow_foldl :
    ∀ (entries : List NodeEntry) (acc : Option NodeEntry),
      (entries.foldl
        (fun root e => if e.parentNodeId = none then some e else root)
        acc).map NodeEntry.toRow =
      (entries.map NodeEntry.toRow).foldl
        (fun root r => if r.parentNodeId = none then some r else root)
        (acc.map NodeEntry.toRow) := by
  intro entries
  induction entries with
  | nil => intro acc; rfl
  | cons e rest ih =>
    intro acc
    simp only [List.foldl_cons, List.map_cons]
    rw [ih]
    by_cases h : e.parentNodeId = none
    · simp [NodeEntry.toRow, h]
    · simp [NodeEntry.toRow, h]

/-- Helper: the root pick, pushed through `NodeEntry.toRow`, is the last
null-parent raw row. -/
theorem pickRoot_toRow (entries : List NodeEntry) :
    (pickRoot entries).map NodeEntry.toRow =
      lastNullParent (entries.map NodeEntry.toRow) := by
  simpa using pickRoot_toRow_foldl entries none

/-- Helper: the root pick comes up empty exactly when no entry has a null
parent pointer. -/
theorem pickRoot_eq_none_iff_foldl :
    ∀ (entries : List NodeEntry) (acc : Option NodeEntry),
      (entries.foldl
        (fun root e => if e.parentNodeId = none then some e else root)
        acc) = none ↔
      (acc = none ∧ ∀ e ∈ entries, e.parentNodeId ≠ none) := by
  intro entries
  induction entries with
  | nil => intro acc; simp
  | cons e rest ih =>
    intro acc
    simp only [List.foldl_cons]
    rw [ih]
    by_cases h : e.parentNodeId = none
    · simp [h]
    · simp only [if_neg h, List.mem_cons]
      constructor
      · intro ⟨ha, hall⟩
        exact ⟨ha, fun x hx => by
          rcases hx with rfl | hx
          · exact h
          · exact hall x hx⟩
      · intro ⟨ha, hall⟩
        exact ⟨ha, fun x hx => hall x (Or.inr hx)⟩

/-- Helper: the root pick fails iff every entry has a non-null parent. -/
theorem pickRoot_eq_none_iff (entries : List NodeEntry) :
    pickRoot entries = none ↔ ∀ e ∈ entries, e.parentNodeId ≠ none := by
  rw [pickRoot, pickRoot_eq_none_iff_foldl]
  simp

/-- Helper: whatever the last-null-parent fold returns has a null parent. -/
theorem lastNullParent_parent_none :
    ∀ (rows : List RawTreeRow) (acc : Option RawTreeRow),
      (∀ x, acc = some x → x.parentNodeId = none) →
      ∀ x,
        rows.foldl
          (fun root r => if r.parentNodeId = none then some r else root)
          acc = some x →
        x.parentNodeId = none := by
  intro rows
  induction rows with
  | nil => intro acc hacc x hx; exact hacc x hx
  | cons r rest ih =>
    intro acc hacc x hx
    simp only [List.foldl_cons] at hx
    by_cases h : r.parentNodeId = none
    · rw [if_pos h] at hx
      exact ih (some r) (fun y hy => by cases hy; exact h) x hx
    · rw [if_neg h] at hx
      exact ih acc hacc x hx

/-- Helper: the entry a built node carries is the one it was built from. -/
theorem buildNode_entry (entries : List NodeEntry) (fuel : Nat)
    (e : NodeEntry) : (buildNode entries fuel e).entry = e := by
  cases fuel with
  | zero => rfl
  | succ n => rfl

/-! ## Claims about the tree builder -/

/-- A one-type registry used in concrete instances. -/
def typeW : ParameterType :=
  { id := 1, guid := "g", urn := "urn:t", friendlyName := "f", dataType := 0,
    description := none, dataUnitsUrn := none }

/-- Rows forming a single tree with one null-parent node in which two
siblings share sibling index 5. -/
def rowsC2 : List RawTreeRow :=
  [{ id := 1, parameterTypeId := 1, parentNodeId := none, siblingIndex := 0 },
   { id := 2, parameterTypeId := 1, parentNodeId := some 1, siblingIndex := 5 },
   { id := 3, parameterTypeId := 1, parentNodeId := some 1, siblingIndex := 5 }]

/-- C2 (counterexample): these rows form a single tree with exactly one
null-parent node, yet the built tree is NOT strictly ascending in sibling
index at every node: the two children of the root tie at sibling index 5,
so the claimed strict order fails. -/
theorem C2_strict_order_counterexample :
    ((buildParameterTree [typeW] rowsC2).toOption.map TreeNode.strictSorted)
        = some false ∧
      (rowsC2.filter fun r => r.parentNodeId == none).length = 1 := by
  constructor
  · rfl
  · rfl

/-- C2 (amended): every tree returned by `buildParameterTree` has, at every
node and every depth, its children in non-decreasing sibling-index order
(hence strictly ascending whenever the children's sibling indices are
pairwise distinct; equal indices stay adjacent, in loaded order). -/
theorem C2_children_sorted (types : List ParameterType)
    (rows : List RawTreeRow) (t : TreeNode)
    (h : buildParameterTree types rows = .ok t) :
    TreeNode.sibSorted t = true := by
  cases hres : resolveAll types rows with
  | error e => simp [buildParameterTree, hres] at h
  | ok entries =>
    simp only [buildParameterTree, hres] at h
    cases hroot : pickRoot entries with
    | none => rw [hroot] at h; simp at h
    | some root =>
      rw [hroot] at h
      have ht : buildNode entries entries.length root = t := by
        simpa using h
      rw [← ht]
      exact buildNode_sibSorted entries entries.length root

/-- The entry resolved from the single row used in the C2 witness. -/
def entryW : NodeEntry :=
  { id := 1, parameterTypeId := 1, parentNodeId := none, siblingIndex := 0,
    parameterType := typeW }

/-- Witness for the amended C2 at a concrete one-row input. -/
theorem C2_children_sorted_witness :
    TreeNode.sibSorted (TreeNode.node entryW []) = true :=
  C2_children_sorted [typeW]
    [{ id := 1, parameterTypeId := 1, parentNodeId := none,
       siblingIndex := 0 }]
    (TreeNode.node entryW []) rfl

/-- Two rows, both with a null parent, for the same root type. -/
def rowsC4 : List RawTreeRow :=
  [{ id := 1, parameterTypeId := 1, parentNodeId := none, siblingIndex := 0 },
   { id := 2, parameterTypeId := 1, parentNodeId := none, siblingIndex := 0 }]

/-- C4 (counterexample): with more than one null-parent row the build does
not fail, but the root is the row with id 2 — the LAST null-parent row in
loaded order — while the claim designates the first (id 1). -/
theorem C4_first_root_counterexample :
    ((buildParameterTree [typeW] rowsC4).toOption.map TreeNode.id) = some 2 ∧
      (rowsC4.filter fun r => r.parentNodeId == none).length = 2 ∧
      ((rowsC4.filter fun r => r.parentNodeId == none).head?.map
        RawTreeRow.id) = some 1 := by
  refine ⟨rfl, rfl, rfl⟩

/-- C4 (amended): whenever every row's type id resolves and some row has a
null parent, `buildParameterTree` does not fail, and the LAST null-parent
row in loaded order becomes the root of the returned tree (in particular,
with more than one null-parent row, the last wins, not the first). -/
theorem C4_last_null_parent_root (types : List ParameterType)
    (rows : List RawTreeRow) (r0 : RawTreeRow)
    (hres : ∀ r ∈ rows, findType types r.parameterTypeId ≠ none)
    (hlast : lastNullParent rows = some r0) :
    ((buildParameterTree types rows).toOption.map TreeNode.id) = some r0.id ∧
      ((buildParameterTree types rows).toOption.map TreeNode.parentNodeId)
        = some (none : Option Nat) := by
  obtain ⟨entries, hok⟩ := resolveAll_ok_of types rows hres
  have hmap := resolveAll_ok_map types rows entries hok
  have hpick := pickRoot_toRow entries
  rw [hmap, hlast] at hpick
  cases hp : pickRoot entries with
  | none => rw [hp] at hpick; cases hpick
  | some e0 =>
    rw [hp] at hpick
    have he0 : NodeEntry.toRow e0 = r0 := by
      simpa using hpick
    have hnull : r0.parentNodeId = none :=
      lastNullParent_parent_none rows none (fun x hx => by cases hx) r0 hlast
    have hbt : buildParameterTree types rows
        = .ok (buildNode entries entries.length e0) := by
      simp [buildParameterTree, hok, hp]
    have hid : TreeNode.id (buildNode entries entries.length e0) = r0.id := by
      unfold TreeNode.id
      rw [buildNode_entry]
      exact congrArg RawTreeRow.id he0
    have hpar : TreeNode.parentNodeId (buildNode entries entries.length e0)
        = none := by
      unfold TreeNode.parentNodeId
      rw [buildNode_entry]
      exact (congrArg RawTreeRow.parentNodeId he0).trans hnull
    rw [hbt]
    constructor
    · show some (TreeNode.id (buildNode entries entries.length e0))
        = some r0.id
      rw [hid]
    · show some (TreeNode.parentNodeId (buildNode entries entries.length e0))
        = some (none : Option Nat)
      rw [hpar]

/-- Witness for the amended C4 at the concrete two-root input: the returned
root has id 2 (the last null-parent row). -/
theorem C4_last_null_parent_root_witness :
    ((buildParameterTree [typeW] rowsC4).toOption.map TreeNode.id) = some 2 ∧
      ((buildParameterTree [typeW] rowsC4).toOption.map TreeNode.parentNodeId)
        = some (none : Option Nat) :=
  C4_last_null_parent_root [typeW] rowsC4
    { id := 2, parameterTypeId := 1, parentNodeId := none, siblingIndex := 0 }
    (by decide) (by decide)

/-- C5: `buildParameterTree` returns an error (the model of the thrown
`Error`) if and only if some loaded row references a type id absent from
the registry, or no loaded row has a null parent id; a row with an unknown
type is never silently dropped (it forces the error), and the error is
propagated as the function's result. -/
theorem C5_schema_error_iff (types : List ParameterType)
    (rows : List RawTreeRow) :
    (∃ er, buildParameterTree types rows = .error er) ↔
      ((∃ r ∈ rows, findType types r.parameterTypeId = none) ∨
        ∀ r ∈ rows, r.parentNodeId ≠ none) := by
  cases hres : resolveAll types rows with
  | error e =>
    have hbt : buildParameterTree types rows = .error e := by
      simp [buildParameterTree, hres]
    have hbad := (resolveAll_error_iff types rows).mp ⟨e, hres⟩
    exact ⟨fun _ => Or.inl hbad, fun _ => ⟨e, hbt⟩⟩
  | ok entries =>
    have hmap := resolveAll_ok_map types rows entries hres
    have hnobad : ¬ ∃ r ∈ rows, findType types r.parameterTypeId = none := by
      intro hb
      obtain ⟨er, her⟩ := (resolveAll_error_iff types rows).mpr hb
      rw [her] at hres
      cases hres
    cases hpick : pickRoot entries with
    | none =>
      have hn := (pickRoot_eq_none_iff entries).mp hpick
      have hbt : buildParameterTree types rows = .error .noRootNode := by
        simp [buildParameterTree, hres, hpick]
      refine ⟨fun _ => Or.inr fun r hr => ?_, fun _ => ⟨.noRootNode, hbt⟩⟩
      rw [← hmap] at hr
      obtain ⟨e, he, rfl⟩ := List.mem_map.mp hr
      exact hn e he
    | some root =>
      have hbt : buildParameterTree types rows
          = .ok (buildNode entries entries.length root) := by
        simp [buildParameterTree, hres, hpick]
      constructor
      · intro ⟨er, her⟩
        rw [hbt] at her
        cases her
      · intro hcase
        rcases hcase with hbad | hnoroot
        · exact absurd hbad hnobad
        · have hnone : pickRoot entries = none :=
            (pickRoot_eq_none_iff entries).mpr fun e he =>
              hnoroot (NodeEntry.toRow e)
                (hmap ▸ List.mem_map.mpr ⟨e, he, rfl⟩)
          rw [hpick] at hnone
          cases hnone

/-! ### Which row ids occur in a built tree -/

/-- Helper: membership in the id listing of a forest. -/
theorem mem_idsList :
    ∀ (cs : List TreeNode) (i : Nat),
      i ∈ TreeNode.idsList cs ↔ ∃ c ∈ cs, i ∈ TreeNode.ids c := by
  intro cs
  induction cs with
  | nil => intro i; simp [TreeNode.idsList]
  | cons c rest ih =>
    intro i
    simp only [TreeNode.idsList, List.mem_append, ih, List.mem_cons]
    constructor
    · intro h
      rcases h with h | ⟨x, hx, hix⟩
      · exact ⟨c, Or.inl rfl, h⟩
      · exact ⟨x, Or.inr hx, hix⟩
    · intro ⟨x, hx, hix⟩
      rcases hx with rfl | hx
      · exact Or.inl hix
      · exact Or.inr ⟨x, hx, hix⟩

/-- Helper: every id in a built tree is the id of the entry it was built
from, or the id of an entry whose parent pointer names another id of the
tree (no node enters a built tree except below the entry its parent
pointer names). -/
theorem mem_ids_buildNode (entries : List NodeEntry) :
    ∀ (fuel : Nat) (e0 : NodeEntry) (i : Nat),
      i ∈ (buildNode entries fuel e0).ids →
      i = e0.id ∨ ∃ e ∈ entries, e.id = i ∧
        ∃ j ∈ (buildNode entries fuel e0).ids, e.parentNodeId = some j := by
  intro fuel
  induction fuel with
  | zero =>
    intro e0 i hi
    left
    simp only [buildNode, TreeNode.ids, TreeNode.idsList] at hi
    simpa using hi
  | succ fuel ih =>
    intro e0 i hi
    rw [show buildNode entries (fuel + 1) e0 =
          .node e0
            (List.insertionSort sibLE
              ((entries.filter fun c => c.parentNodeId == some e0.id).map
                (buildNode entries fuel))) from rfl] at hi ⊢
    simp only [TreeNode.ids, List.mem_cons] at hi
    rcases hi with rfl | hi
    · exact Or.inl rfl
    · rw [mem_idsList] at hi
      obtain ⟨c, hc0, hic⟩ := hi
      have hc1 := hc0
      rw [List.mem_insertionSort] at hc1
      obtain ⟨e', he', rfl⟩ := List.mem_map.mp hc1
      have hef := List.mem_filter.mp he'
      have hparent : e'.parentNodeId = some e0.id := by
        simpa using hef.2
      rcases ih e' i hic with rfl | ⟨e, he, heid, j, hj, hpj⟩
      · right
        refine ⟨e', hef.1, rfl, e0.id, ?_, hparent⟩
        simp [TreeNode.ids]
      · right
        refine ⟨e, he, heid, j, ?_, hpj⟩
        simp only [TreeNode.ids, List.mem_cons]
        right
        rw [mem_idsList]
        exact ⟨_, hc0, hj⟩

/-- Helper: every id of a built tree is the id of some loaded entry
(when the build starts from a loaded entry). -/
theorem ids_buildNode_sub (entries : List NodeEntry) :
    ∀ (fuel : Nat) (e0 : NodeEntry), e0 ∈ entries →
      ∀ i ∈ (buildNode entries fuel e0).ids, ∃ e ∈ entries, e.id = i := by
  intro fuel
  induction fuel with
  | zero =>
    intro e0 he0 i hi
    simp only [buildNode, TreeNode.ids, TreeNode.idsList] at hi
    have : i = e0.id := by simpa using hi
    exact ⟨e0, he0, this.symm⟩
  | succ fuel ih =>
    intro e0 he0 i hi
    rw [show buildNode entries (fuel + 1) e0 =
          .node e0
            (List.insertionSort sibLE
              ((entries.filter fun c => c.parentNodeId == some e0.id).map
                (buildNode entries fuel))) from rfl] at hi
    simp only [TreeNode.ids, List.mem_cons] at hi
    rcases hi with rfl | hi
    · exact ⟨e0, he0, rfl⟩
    · rw [mem_idsList] at hi
      obtain ⟨c, hc0, hic⟩ := hi
      rw [List.mem_insertionSort] at hc0
      obtain ⟨e', he', rfl⟩ := List.mem_map.mp hc0
      exact ih e' (List.mem_filter.mp he').1 i hic

/-- Helper: pairwise-distinct ids make the id an injective key. -/
theorem pairwise_id_inj :
    ∀ {entries : List NodeEntry},
      entries.Pairwise (fun a b => a.id ≠ b.id) →
      ∀ a ∈ entries, ∀ b ∈ entries, a.id = b.id → a = b := by
  intro entries
  induction entries with
  | nil => intro _ a ha; cases ha
  | cons x rest ih =>
    intro h a ha b hb heq
    rw [List.pairwise_cons] at h
    rcases List.mem_cons.mp ha with rfl | ha2
    · rcases List.mem_cons.mp hb with rfl | hb2
      · rfl
      · exact absurd heq (h.1 b hb2)
    · rcases List.mem_cons.mp hb with rfl | hb2
      · exact absurd heq.symm (h.1 a ha2)
      · exact ih h.2 a ha2 b hb2 heq

/-- Helper: a successful root pick returns either the accumulator or a
null-parent element of the list. -/
theorem pickRoot_mem :
    ∀ (l : List NodeEntry) (acc : Option NodeEntry) (x : NodeEntry),
      l.foldl (fun root e => if e.parentNodeId = none then some e else root)
        acc = some x →
      acc = some x ∨ (x ∈ l ∧ x.parentNodeId = none) := by
  intro l
  induction l with
  | nil => intro acc x h; exact Or.inl h
  | cons e rest ih =>
    intro acc x h
    simp only [List.foldl_cons] at h
    rcases ih _ x h with hacc | ⟨hm, hn⟩
    · by_cases hp : e.parentNodeId = none
      · rw [if_pos hp] at hacc
        cases hacc
        exact Or.inr ⟨by simp, hp⟩
      · rw [if_neg hp] at hacc
        exact Or.inl hacc
    · exact Or.inr ⟨by simp [hm], hn⟩

/-- Descendant-of-an-id relation over raw rows: a row descends from id
`oid` when its parent chain (through loaded rows) reaches `oid`. -/
inductive Descends (rows : List RawTreeRow) (oid : Nat) : RawTreeRow → Prop
  where
  | base (r : RawTreeRow) (h : r.parentNodeId = some oid) :
      Descends rows oid r
  | step (q r : RawTreeRow) (hq : q ∈ rows) (hd : Descends rows oid q)
      (h : r.parentNodeId = some q.id) : Descends rows oid r

/-- C10: a tree-node row whose non-null parent id resolves to no loaded
row does not make `buildParameterTree` fail; the orphan row and all its
descendants are silently omitted from the returned tree (row ids are
primary keys, hence the pairwise-distinct hypothesis). -/
theorem C10_orphan_omitted (types : List ParameterType)
    (rows : List RawTreeRow) (o : RawTreeRow) (p : Nat) (t : TreeNode)
    (hids : rows.Pairwise fun a b => a.id ≠ b.id)
    (ho : o ∈ rows) (hop : o.parentNodeId = some p)
    (hpm : p ∉ rows.map RawTreeRow.id)
    (ht : buildParameterTree types rows = .ok t) :
    o.id ∉ t.ids ∧
      ∀ r ∈ rows, Descends rows o.id r → r.id ∉ t.ids := by
  cases hres : resolveAll types rows with
  | error e => simp [buildParameterTree, hres] at ht
  | ok entries =>
    simp only [buildParameterTree, hres] at ht
    cases hpick : pickRoot entries with
    | none => rw [hpick] at ht; simp at ht
    | some root =>
      rw [hpick] at ht
      have htt : buildNode entries entries.length root = t := by simpa using ht
      subst htt
      have hmap := resolveAll_ok_map types rows entries hres
      have hpw : entries.Pairwise fun a b => a.id ≠ b.id := by
        rw [← hmap] at hids
        exact List.Pairwise.of_map NodeEntry.toRow (fun a b h => h) hids
      have hrootmem : root ∈ entries := by
        rcases pickRoot_mem entries none root hpick with h0 | ⟨hm, _⟩
        · cases h0
        · exact hm
      have hrootnull : root.parentNodeId = none := by
        rcases pickRoot_mem entries none root hpick with h0 | ⟨_, hn⟩
        · cases h0
        · exact hn
      have ho2 := ho
      rw [← hmap] at ho2
      obtain ⟨eo, heo, heor⟩ := List.mem_map.mp ho2
      have hpnot : p ∉ (buildNode entries entries.length root).ids := by
        intro hp
        obtain ⟨e, he, heid⟩ :=
          ids_buildNode_sub entries entries.length root hrootmem p hp
        apply hpm
        rw [← hmap, List.map_map]
        exact List.mem_map.mpr ⟨e, he, heid⟩
      have hkey : ∀ er ∈ entries, ∀ m, er.parentNodeId = some m →
          m ∉ (buildNode entries entries.length root).ids →
          er.id ∉ (buildNode entries entries.length root).ids := by
        intro er herm m hparm hmnot hin
        rcases mem_ids_buildNode entries entries.length root er.id hin with
          hroot | ⟨e, he, heid, j, hj, hpj⟩
        · have her : er = root := pairwise_id_inj hpw er herm root hrootmem hroot
          rw [her, hrootnull] at hparm
          cases hparm
        · have hee : e = er := pairwise_id_inj hpw e he er herm heid
          rw [hee, hparm] at hpj
          cases hpj
          exact hmnot hj
      have hfirst : o.id ∉ (buildNode entries entries.length root).ids := by
        have hpo : eo.parentNodeId = some p :=
          (congrArg RawTreeRow.parentNodeId heor).trans hop
        have := hkey eo heo p hpo hpnot
        rw [← congrArg RawTreeRow.id heor]
        exact this
      have hsecond : ∀ r : RawTreeRow, Descends rows o.id r → r ∈ rows →
          r.id ∉ (buildNode entries entries.length root).ids := by
        intro r hd
        induction hd with
        | base r2 hpar =>
          intro hrm
          have hrm2 := hrm
          rw [← hmap] at hrm2
          obtain ⟨er, herm, herr⟩ := List.mem_map.mp hrm2
          have herp : er.parentNodeId = some o.id :=
            (congrArg RawTreeRow.parentNodeId herr).trans hpar
          have := hkey er herm o.id herp hfirst
          rw [← congrArg RawTreeRow.id herr]
          exact this
        | step q r2 hq hd2 hpar ih =>
          intro hrm
          have hqnot := ih hq
          have hrm2 := hrm
          rw [← hmap] at hrm2
          obtain ⟨er, herm, herr⟩ := List.mem_map.mp hrm2
          have herp : er.parentNodeId = some q.id :=
            (congrArg RawTreeRow.parentNodeId herr).trans hpar
          have := hkey er herm q.id herp hqnot
          rw [← congrArg RawTreeRow.id herr]
          exact this
      exact ⟨hfirst, fun r hr hd => hsecond r hd hr⟩

/-- Rows with one root, an orphan row (parent id 99 loads nothing), and a
child of the orphan. -/
def rowsC10 : List RawTreeRow :=
  [{ id := 1, parameterTypeId := 1, parentNodeId := none, siblingIndex := 0 },
   { id := 2, parameterTypeId := 1, parentNodeId := some 99,
     siblingIndex := 0 },
   { id := 3, parameterTypeId := 1, parentNodeId := some 2,
     siblingIndex := 0 }]

/-- Witness for C10 at the concrete input: the build succeeds and the
orphan row id 2 does not occur in the returned tree. -/
theorem C10_orphan_omitted_witness : 2 ∉ (TreeNode.node entryW []).ids :=
  (C10_orphan_omitted [typeW] rowsC10
    { id := 2, parameterTypeId := 1, parentNodeId := some 99,
      siblingIndex := 0 }
    99 (TreeNode.node entryW []) (by decide) (by decide) (by decide)
    (by decide) rfl).1

/-! ## Value extraction (src/readParameterData.ts) -/

/-- Data type code: no value. -/
def DATA_TYPE_NONE : Int := 0
/-- Data type code: int32 stored as single. -/
def DATA_TYPE_INT32_SINGLE : Int := 1
/-- Data type code: int32. -/
def DATA_TYPE_INT32 : Int := 2
/-- Data type code: double. -/
def DATA_TYPE_DOUBLE : Int := 4
/-- Data type code: single. -/
def DATA_TYPE_SINGLE : Int := 5
/-- Data type code: boolean. -/
def DATA_TYPE_BOOLEAN : Int := 6
/-- Data type code: int64 stored as single. -/
def DATA_TYPE_INT64_SINGLE : Int := 7
/-- Data type code: int64. -/
def DATA_TYPE_INT64 : Int := 9
/-- Data type code: guid. -/
def DATA_TYPE_GUID : Int := 16
/-- Data type code: text. -/
def DATA_TYPE_TEXT : Int := 17
/-- Data type code: dictionary keys. -/
def DATA_TYPE_DICTIONARY_KEYS : Int := 32
/-- Data type code: dictionary. -/
def DATA_TYPE_DICTIONARY : Int := 36
/-- Data type code: guid list. -/
def DATA_TYPE_GUID_LIST : Int := 42
/-- Data type code: date-time. -/
def DATA_TYPE_DATE_TIME : Int := 48
/-- Data type code: duration. -/
def DATA_TYPE_DURATION : Int := 50
/-- Data type code: blob array. -/
def DATA_TYPE_BLOB_ARRAY : Int := 70

/-- Every code the `extractValue` switch names a case for; any other code
falls to the default. -/
def recognizedDataTypes : List Int :=
  [DATA_TYPE_NONE, DATA_TYPE_INT32_SINGLE, DATA_TYPE_INT32, DATA_TYPE_DOUBLE,
   DATA_TYPE_SINGLE, DATA_TYPE_BOOLEAN, DATA_TYPE_INT64_SINGLE,
   DATA_TYPE_INT64, DATA_TYPE_GUID, DATA_TYPE_TEXT,
   DATA_TYPE_DICTIONARY_KEYS, DATA_TYPE_DICTIONARY, DATA_TYPE_GUID_LIST,
   DATA_TYPE_DATE_TIME, DATA_TYPE_DURATION, DATA_TYPE_BLOB_ARRAY]

/-- A raw row of RecordParameterData with the separately loaded blob merged
in (`RawDataRow` in the source).  All columns are nullable. -/
structure RawDataRow where
  parameterTreeNodeId : Nat
  parameterTypeId : Nat
  dataBlob : Option (List Nat)
  dataBoolean : Option Int
  dataDouble : Option Int
  dataInt32 : Option Int
  dataInt64 : Option Int
  dataSingle : Option Int
  dataText : Option String
deriving DecidableEq, Repr

/-- Extract the typed value from a raw data row based on the parameter data
type (`extractValue` in the source): the switch cases in source order,
with `??`-fallbacks rendered as `Option.orElse` and the default case (any
unrecognized code) yielding no value. -/
def extractValue (dataType : Int) (row : RawDataRow) : Option JSValue :=
  if dataType = DATA_TYPE_NONE ∨ dataType = DATA_TYPE_DICTIONARY then
    none
  else if dataType = DATA_TYPE_INT32_SINGLE ∨ dataType = DATA_TYPE_INT32 then
    row.dataInt32.map JSValue.num
  else if dataType = DATA_TYPE_DOUBLE ∨ dataType = DATA_TYPE_SINGLE ∨
      dataType = DATA_TYPE_DURATION then
    (row.dataDouble.orElse fun _ => row.dataSingle).map JSValue.num
  else if dataType = DATA_TYPE_BOOLEAN then
    row.dataBoolean.map fun b => JSValue.bool (decide (b ≠ 0))
  else if dataType = DATA_TYPE_INT64_SINGLE then
    (row.dataInt64.orElse fun _ => row.dataInt32).map JSValue.num
  else if dataType = DATA_TYPE_INT64 then
    row.dataInt64.map JSValue.num
  else if dataType = DATA_TYPE_GUID ∨ dataType = DATA_TYPE_TEXT ∨
      dataType = DATA_TYPE_DICTIONARY_KEYS ∨ dataType = DATA_TYPE_GUID_LIST ∨
      dataType = DATA_TYPE_DATE_TIME then
    row.dataText.map JSValue.str
  else if dataType = DATA_TYPE_BLOB_ARRAY then
    row.dataBlob.map fun b => JSValue.arr (decodeBlob b)
  else
    none

mutual

/-- Recursively convert a linked TreeNode into a ZmesParameter
(`convertNode` in the source): name and urn from the resolved type, the
value extracted from the matching data row when one exists and extraction
yields one, and the converted children (the `children` field is only set
when the node has children). -/
def convertNode (dataMap : Nat → Option RawDataRow) : TreeNode → ZmesParameter
  | .node e cs =>
    ZmesParameter.mk e.parameterType.friendlyName e.parameterType.urn
      (match dataMap e.id with
       | some row => extractValue e.parameterType.dataType row
       | none => none)
      (if cs.length > 0 then some (convertForest dataMap cs) else none)

/-- The child-conversion loop of `convertNode`, in order. -/
def convertForest (dataMap : Nat → Option RawDataRow) :
    List TreeNode → List ZmesParameter
  | [] => []
  | c :: rest => convertNode dataMap c :: convertForest dataMap rest

end

/-! ## Claims about value extraction -/

/-- C6: for every data row whose type code is a floating code (double,
single or duration), extraction returns the double column when non-null,
else the single column when non-null; in particular when only the single
column is populated the result is that number, never no value. -/
theorem C6_float_fallback (dataType : Int) (row : RawDataRow)
    (h : dataType = DATA_TYPE_DOUBLE ∨ dataType = DATA_TYPE_SINGLE ∨
      dataType = DATA_TYPE_DURATION) :
    extractValue dataType row =
      (match row.dataDouble with
       | some d => some (JSValue.num d)
       | none => row.dataSingle.map JSValue.num) ∧
    ∀ s : Int, row.dataDouble = none → row.dataSingle = some s →
      extractValue dataType row = some (JSValue.num s) := by
  have hmain : extractValue dataType row =
      (match row.dataDouble with
       | some d => some (JSValue.num d)
       | none => row.dataSingle.map JSValue.num) := by
    rcases h with rfl | rfl | rfl <;>
      · simp only [extractValue, DATA_TYPE_NONE, DATA_TYPE_DICTIONARY,
          DATA_TYPE_INT32_SINGLE, DATA_TYPE_INT32, DATA_TYPE_DOUBLE,
          DATA_TYPE_SINGLE, DATA_TYPE_DURATION]
        norm_num
        cases row.dataDouble with
        | none => simp [Option.orElse]
        | some d => simp [Option.orElse]
  refine ⟨hmain, fun s hd hs => ?_⟩
  rw [hmain, hd, hs]
  rfl

/-- A row in which only the single/float column is populated. -/
def rowC6 : RawDataRow :=
  { parameterTreeNodeId := 1, parameterTypeId := 1, dataBlob := none,
    dataBoolean := none, dataDouble := none, dataInt32 := none,
    dataInt64 := none, dataSingle := some 7, dataText := none }

/-- Witness for C6: on the single-only row with the single code, the value
is the single-column number, not no value. -/
theorem C6_float_fallback_witness :
    extractValue DATA_TYPE_SINGLE rowC6 = some (JSValue.num 7) :=
  (C6_float_fallback DATA_TYPE_SINGLE rowC6 (Or.inr (Or.inl rfl))).2 7 rfl rfl

/-- C8: for every node whose type code is the no-value code, the dictionary
code, or any unrecognized code, extraction attaches no value (and raises no
error: it is total and returns none for every row), while the converted
parameter still carries the node's name and urn and, when the node has
children, its converted children in order. -/
theorem C8_no_value_codes (dataMap : Nat → Option RawDataRow)
    (e : NodeEntry) (cs : List TreeNode)
    (h : e.parameterType.dataType = DATA_TYPE_NONE ∨
      e.parameterType.dataType = DATA_TYPE_DICTIONARY ∨
      e.parameterType.dataType ∉ recognizedDataTypes) :
    (∀ row, extractValue e.parameterType.dataType row = none) ∧
    (convertNode dataMap (.node e cs)).value = none ∧
    (convertNode dataMap (.node e cs)).name = e.parameterType.friendlyName ∧
    (convertNode dataMap (.node e cs)).urn = e.parameterType.urn ∧
    (cs ≠ [] →
      (convertNode dataMap (.node e cs)).children
        = some (convertForest dataMap cs)) := by
  have hextract : ∀ row, extractValue e.parameterType.dataType row = none := by
    intro row
    rcases h with h0 | h36 | hun
    · simp [extractValue, h0, DATA_TYPE_NONE, DATA_TYPE_DICTIONARY]
    · simp [extractValue, h36, DATA_TYPE_NONE, DATA_TYPE_DICTIONARY]
    · simp only [recognizedDataTypes, List.mem_cons, List.not_mem_nil,
        or_false, not_or] at hun
      obtain ⟨h0, h1, h2, h4, h5, h6, h7, h9, h16, h17, h32, h36, h42,
        h48, h50, h70⟩ := hun
      simp [extractValue, h0, h1, h2, h4, h5, h6, h7, h9, h16, h17, h32,
        h36, h42, h48, h50, h70]
  refine ⟨hextract, ?_, ?_, ?_, ?_⟩
  · simp only [convertNode, ZmesParameter.value]
    cases dataMap e.id with
    | none => rfl
    | some row => exact hextract row
  · simp only [convertNode, ZmesParameter.name]
  · simp only [convertNode, ZmesParameter.urn]
  · intro hne
    have hlen : cs.length > 0 := List.length_pos.mpr hne
    simp only [convertNode, ZmesParameter.children, if_pos hlen]

/-- A dictionary-typed parameter type. -/
def typeDict : ParameterType :=
  { id := 2, guid := "g2", urn := "urn:dict", friendlyName := "Group",
    dataType := DATA_TYPE_DICTIONARY, description := none,
    dataUnitsUrn := none }

/-- A dictionary-typed entry whose data row is present and populated. -/
def entryC8 : NodeEntry :=
  { id := 1, parameterTypeId := 2, parentNodeId := none, siblingIndex := 0,
    parameterType := typeDict }

/-- A data map that returns a populated row for node id 1. -/
def dataMapC8 : Nat → Option RawDataRow := fun i =>
  if i = 1 then
    some { parameterTreeNodeId := 1, parameterTypeId := 2, dataBlob := none,
           dataBoolean := none, dataDouble := some 3, dataInt32 := none,
           dataInt64 := none, dataSingle := none, dataText := some "x" }
  else none

/-- Witness for C8: converting a dictionary-coded node with a matching,
populated data row attaches no value. -/
theorem C8_no_value_codes_witness :
    (convertNode dataMapC8 (.node entryC8 [])).value = none :=
  (C8_no_value_codes dataMapC8 entryC8 [] (Or.inr (Or.inl rfl))).2.1

/-! ## Domain projection (src/toMeasurementXY.ts) -/

/-- Descriptor of a measurement variable (`VariableDescriptor`). -/
structure VariableDescriptor where
  parameterName : String
  symbol : String
  label : String
  units : String
  isDependent : Bool
deriving DecidableEq, Repr

/-- The first table entry: the independent variable, name Sizes, symbol x. -/
def sizesDescriptor : VariableDescriptor :=
  { parameterName := "Sizes", symbol := "x", label := "Particle diameter",
    units := "nm", isDependent := false }

/-- The second table entry: the primary dependent variable, symbol y. -/
def intensityDescriptor : VariableDescriptor :=
  { parameterName := "Particle Size Intensity Distribution", symbol := "y",
    label := "Intensity", units := "%", isDependent := true }

/-- The remaining (optional) table entries, symbols a to f. -/
def otherDescriptors : List VariableDescriptor :=
  [{ parameterName := "Particle Size Volume Distribution (%)", symbol := "a",
     label := "Volume", units := "%", isDependent := true },
   { parameterName := "Particle Size Number Distribution", symbol := "b",
     label := "Number", units := "%", isDependent := true },
   { parameterName := "Molecular Weights", symbol := "c",
     label := "Molecular weight", units := "Da", isDependent := true },
   { parameterName := "Diffusion Coefficients", symbol := "d",
     label := "Diffusion coefficient", units := "µm²/s",
     isDependent := true },
   { parameterName := "Relaxation Times", symbol := "e",
     label := "Relaxation time", units := "µs", isDependent := true },
   { parameterName := "Form Factor", symbol := "f", label := "Form factor",
     units := "", isDependent := true }]

/-- The fixed descriptor table (`VARIABLE_DESCRIPTORS` in the source),
in source order. -/
def VARIABLE_DESCRIPTORS : List VariableDescriptor :=
  sizesDescriptor :: intensityDescriptor :: otherDescriptors

/-- A measurement variable (`MeasurementVariable` of cheminfo-types,
with the `Float64Array` data modelled as in `JSValue.arr`). -/
structure MeasurementVariable where
  symbol : String
  label : String
  units : String
  data : List Nat
  isDependent : Bool
deriving DecidableEq, Repr

/-- Whether an optional search result holds a `Float64Array` value
(the `parameter?.value instanceof Float64Array` test). -/
def isFloat64Array : Option ZmesParameter → Bool
  | some q =>
    match q.value with
    | some (JSValue.arr _) => true
    | _ => false
  | none => false

/-- One loop iteration of `buildVariables`, as the optional entry it adds
to the `found` map: the deep search must succeed with a `Float64Array`
value, else nothing is added. -/
def variableEntry (parameters : ZmesParameter) (d : VariableDescriptor) :
    Option (String × MeasurementVariable) :=
  match findParameterDeep parameters d.parameterName with
  | some q =>
    match q.value with
    | some (JSValue.arr xs) =>
      some (d.symbol,
        { symbol := d.symbol, label := d.label, units := d.units,
          data := xs, isDependent := d.isDependent })
    | _ => none
  | none => none

/-- Build the variables map (`buildVariables` in the source): iterate the
descriptor table collecting array-valued hits keyed by symbol (the insertion
-ordered `found` map is the list of its entries; symbols are pairwise
distinct so no overwriting occurs), then require x and y, and lay out x, y
and the remaining found symbols in insertion order. -/
def buildVariables (parameters : ZmesParameter) :
    Option (List (String × MeasurementVariable)) :=
  let found := VARIABLE_DESCRIPTORS.foldl (fun acc d =>
    match variableEntry parameters d with
    | some kv => acc ++ [kv]
    | none => acc) []
  match found.find? (fun kv => kv.1 == "x"),
      found.find? (fun kv => kv.1 == "y") with
  | some x, some y =>
    some ([("x", x.2), ("y", y.2)] ++
      found.filter fun kv => !(kv.1 == "x") && !(kv.1 == "y"))
  | _, _ => none

/-- Extract the sample name used as title (`extractTitle`). -/
def extractTitle (parameters : ZmesParameter) : String :=
  match findParameter (parameters.children.getD []) "Sample Settings" with
  | none => ""
  | some sampleSettings =>
    match findParameterDeep sampleSettings "Sample Name" with
    | some sampleName =>
      match sampleName.value with
      | some (JSValue.str s) => s
      | _ => ""
    | none => ""

/-- The top-level metadata fields (parameterName, metaKey). -/
def topLevelFields : List (String × String) :=
  [("Operator Name", "operatorName"),
   ("Measurement Start Date And Time", "measurementStartDateTime"),
   ("Measurement Completed Date And Time", "measurementCompletedDateTime"),
   ("Repeat", "repeat"),
   ("Number Of Repeats", "numberOfRepeats"),
   ("Pause Between Repeats (s)", "pauseBetweenRepeats"),
   ("Quality Indicator", "qualityIndicator"),
   ("Result State", "resultState"),
   ("Measurement Type", "measurementType")]

/-- The deep-searched metadata fields (parameterName, metaKey). -/
def deepFields : List (String × String) :=
  [("Z-Average (nm)", "zAverage"),
   ("Polydispersity Index (PI)", "polydispersityIndex"),
   ("Derived Mean Count Rate (kcps)", "derivedMeanCountRate")]

/-- Extract scalar metadata (`extractMeta`), as the association list of the
assignments the source performs, in program order. -/
def extractMeta (parameters : ZmesParameter) : List (String × JSValue) :=
  let children := parameters.children.getD []
  let m1 := topLevelFields.foldl (fun meta f =>
    match (findParameter children f.1).bind ZmesParameter.value with
    | some v => meta ++ [(f.2, v)]
    | none => meta) []
  let m2 := deepFields.foldl (fun meta f =>
    match (findParameterDeep parameters f.1).bind ZmesParameter.value with
    | some v => meta ++ [(f.2, v)]
    | none => meta) m1
  let m3 :=
    match findParameterDeep parameters "Material Settings" with
    | some materialSettings =>
      let mRI :=
        match (findParameterDeep materialSettings "Material RI").bind
            ZmesParameter.value with
        | some v => m2 ++ [("materialRI", v)]
        | none => m2
      match (findParameterDeep materialSettings "Material Absorption").bind
          ZmesParameter.value with
      | some v => mRI ++ [("materialAbsorption", v)]
      | none => mRI
    | none => m2
  let m4 :=
    match (findParameterDeep parameters "Dispersant Viscosity (cP)").bind
        ZmesParameter.value with
    | some v => m3 ++ [("dispersantViscosity", v)]
    | none => m3
  match (findParameterDeep parameters "Dispersant RI").bind
      ZmesParameter.value with
  | some v => m4 ++ [("dispersantRI", v)]
  | none => m4

/-- Software block of the instrument settings. -/
structure ZmesSoftware where
  name : String
  version : Option String
deriving DecidableEq, Repr

/-- Instrument block of the settings. -/
structure ZmesInstrument where
  manufacturer : String
  model : String
  serialNumber : Option String
  software : ZmesSoftware
deriving DecidableEq, Repr

/-- The settings object: the instrument block plus the numeric fields
appended in program order. -/
structure MeasurementSettings where
  instrument : ZmesInstrument
  fields : List (String × Int)
deriving DecidableEq, Repr

/-- The numeric instrument-settings fields (parameterName, settingsKey). -/
def instrumentSettingsFields : List (String × String) :=
  [("Detector Angle (°)", "detectorAngle"),
   ("Run Duration (s)", "runDuration"),
   ("Number Of Runs", "numberOfRuns"),
   ("Temperature (°C)", "temperature"),
   ("Attenuator", "attenuator"),
   ("Attenuation Factor", "attenuationFactor"),
   ("Cuvette Position (mm)", "cuvettePosition"),
   ("Laser Wavelength (nm)", "laserWavelength")]

/-- Extract the instrument settings (`extractSettings`): fixed manufacturer
and software info, optional serial number and version when string-valued,
then the numeric fields, each included only when number-typed. -/
def extractSettings (parameters : ZmesParameter) : MeasurementSettings :=
  let children := parameters.children.getD []
  let softwareVersion := findParameter children "Software Version"
  let instrumentSerialNumber :=
    findParameterDeep parameters "Instrument Serial Number"
  { instrument :=
      { manufacturer := "Malvern Panalytical", model := "Zetasizer",
        serialNumber :=
          match instrumentSerialNumber with
          | some q =>
            match q.value with
            | some (JSValue.str s) => some s
            | _ => none
          | none => none,
        software :=
          { name := "ZS XPLORER",
            version :=
              match softwareVersion with
              | some q =>
                match q.value with
                | some (JSValue.str s) => some s
                | _ => none
              | none => none } },
    fields := instrumentSettingsFields.foldl (fun acc f =>
      match findParameterDeep parameters f.1 with
      | some q =>
        match q.value with
        | some (JSValue.num n) => acc ++ [(f.2, n)]
        | _ => acc
      | none => acc) [] }

/-- A projected measurement (`MeasurementXY` as populated by the source;
the source's `variables` field is `vars` here because `variables` is a
reserved word in Lean). -/
structure Measurement where
  id : String
  title : String
  dataType : String
  meta : List (String × JSValue)
  settings : MeasurementSettings
  vars : List (String × MeasurementVariable)

/-- Group info of a record. -/
structure ZmesGroup where
  id : Nat
  guid : String
  name : Option String

/-- A parsed measurement record (`ZmesRecord`). -/
structure ZmesRecord where
  id : Nat
  guid : String
  group : ZmesGroup
  createdDateTime : String
  modifiedDateTime : String
  parameters : ZmesParameter

/-- A parsed file (`ZmesFile`). -/
structure ZmesFile where
  schemaVersion : Int
  metadata : List (String × String)
  records : List ZmesRecord

/-- The body of the per-record loop of `toMeasurementXY`: the optional
measurement a record contributes (none exactly when `buildVariables`
returns nothing, in which case the loop continues). -/
def recordMeasurement (record : ZmesRecord) : Option Measurement :=
  (buildVariables record.parameters).map fun vs =>
    { id := record.guid, title := extractTitle record.parameters,
      dataType := "Size measurement",
      meta := extractMeta record.parameters,
      settings := extractSettings record.parameters,
      vars := vs }

/-- Convert a parsed file into measurements (`toMeasurementXY` in the
source): one measurement per record passing the mandatory-variable gate. -/
def toMeasurementXY (zmesFile : ZmesFile) : List Measurement :=
  zmesFile.records.filterMap recordMeasurement

/-- The mandatory-field gate: both the independent variable name and the
primary dependent name must deep-resolve to array-valued parameters. -/
def hasMandatoryVariables (parameters : ZmesParameter) : Bool :=
  isFloat64Array (findParameterDeep parameters "Sizes") &&
    isFloat64Array
      (findParameterDeep parameters "Particle Size Intensity Distribution")

/-! ### The mandatory-variable gate of buildVariables -/

/-- Helper: an entry added to the found map is keyed by its descriptor's
symbol. -/
theorem variableEntry_key (p : ZmesParameter) (d : VariableDescriptor)
    (kv : String × MeasurementVariable) (h : variableEntry p d = some kv) :
    kv.1 = d.symbol := by
  unfold variableEntry at h
  cases hf : findParameterDeep p d.parameterName with
  | none => rw [hf] at h; simp at h
  | some q =>
    rw [hf] at h
    dsimp only at h
    cases hv : q.value with
    | none => rw [hv] at h; simp at h
    | some v =>
      rw [hv] at h
      cases v with
      | arr xs =>
        dsimp only at h
        cases h
        rfl
      | bool b => simp at h
      | num n => simp at h
      | str s => simp at h

/-- Helper: a descriptor contributes an entry exactly when its name
deep-resolves to an array-valued parameter. -/
theorem variableEntry_isSome (p : ZmesParameter) (d : VariableDescriptor) :
    (variableEntry p d).isSome
      = isFloat64Array (findParameterDeep p d.parameterName) := by
  unfold variableEntry isFloat64Array
  cases findParameterDeep p d.parameterName with
  | none => rfl
  | some q =>
    dsimp only
    cases hv : q.value with
    | none => simp [hv]
    | some v => cases v <;> simp [hv]

/-- Helper: the found-map fold is the accumulator followed by the entries
the descriptors contribute, in order. -/
theorem foldl_variableEntry (p : ZmesParameter) :
    ∀ (ds : List VariableDescriptor)
      (acc : List (String × MeasurementVariable)),
      ds.foldl (fun acc d =>
        match variableEntry p d with
        | some kv => acc ++ [kv]
        | none => acc) acc
      = acc ++ ds.filterMap (variableEntry p) := by
  intro ds
  induction ds with
  | nil => intro acc; simp
  | cons d rest ih =>
    intro acc
    simp only [List.foldl_cons, List.filterMap_cons]
    cases hv : variableEntry p d with
    | none => rw [ih]
    | some kv => rw [ih]; simp

/-- Helper: searching the found entries of descriptors none of which has
symbol `s` yields nothing. -/
theorem find?_key_none (p : ZmesParameter) (s : String) :
    ∀ ds : List VariableDescriptor, (∀ d ∈ ds, d.symbol ≠ s) →
      ((ds.filterMap (variableEntry p)).find? fun kv => kv.1 == s)
        = none := by
  intro ds
  induction ds with
  | nil => intro _; rfl
  | cons d rest ih =>
    intro h
    simp only [List.filterMap_cons]
    cases hv : variableEntry p d with
    | none => exact ih fun x hx => h x (by simp [hx])
    | some kv =>
      rw [List.find?_cons]
      have hks : kv.1 ≠ s := by
        rw [variableEntry_key p d kv hv]
        exact h d (by simp)
      have hb : (kv.1 == s) = false := beq_eq_false_iff_ne.mpr hks
      rw [hb]
      exact ih fun x hx => h x (by simp [hx])

/-- Helper: the x lookup in the found map is decided by the Sizes
descriptor alone (no other descriptor has symbol x). -/
theorem found_find_x (p : ZmesParameter) :
    ((VARIABLE_DESCRIPTORS.filterMap (variableEntry p)).find?
      fun kv => kv.1 == "x") = variableEntry p sizesDescriptor := by
  simp only [VARIABLE_DESCRIPTORS]
  rw [List.filterMap_cons]
  cases hx : variableEntry p sizesDescriptor with
  | none =>
    exact find?_key_none p "x" (intensityDescriptor :: otherDescriptors)
      (by decide)
  | some kv =>
    rw [List.find?_cons]
    have hb : (kv.1 == "x") = true := by
      rw [variableEntry_key p sizesDescriptor kv hx]
      rfl
    rw [hb]

/-- Helper: the y lookup in the found map is decided by the intensity
descriptor alone (the Sizes entry is keyed x, no later descriptor has
symbol y). -/
theorem found_find_y (p : ZmesParameter) :
    ((VARIABLE_DESCRIPTORS.filterMap (variableEntry p)).find?
      fun kv => kv.1 == "y") = variableEntry p intensityDescriptor := by
  simp only [VARIABLE_DESCRIPTORS]
  rw [List.filterMap_cons]
  cases hx : variableEntry p sizesDescriptor with
  | none =>
    rw [List.filterMap_cons]
    cases hy : variableEntry p intensityDescriptor with
    | none => exact find?_key_none p "y" otherDescriptors (by decide)
    | some kv =>
      rw [List.find?_cons]
      have hb : (kv.1 == "y") = true := by
        rw [variableEntry_key p intensityDescriptor kv hy]
        rfl
      rw [hb]
  | some kvx =>
    rw [List.find?_cons]
    have hbx : (kvx.1 == "y") = false := by
      rw [variableEntry_key p sizesDescriptor kvx hx]
      rfl
    rw [hbx, List.filterMap_cons]
    cases hy : variableEntry p intensityDescriptor with
    | none => exact find?_key_none p "y" otherDescriptors (by decide)
    | some kv =>
      rw [List.find?_cons]
      have hb : (kv.1 == "y") = true := by
        rw [variableEntry_key p intensityDescriptor kv hy]
        rfl
      rw [hb]

/-- Helper: `buildVariables` comes up empty exactly when the mandatory
x (Sizes) or y (intensity) array is missing. -/
theorem buildVariables_none_iff (p : ZmesParameter) :
    buildVariables p = none ↔ hasMandatoryVariables p = false := by
  have hXs : (variableEntry p sizesDescriptor).isSome
      = isFloat64Array (findParameterDeep p "Sizes") :=
    variableEntry_isSome p sizesDescriptor
  have hYs : (variableEntry p intensityDescriptor).isSome
      = isFloat64Array
          (findParameterDeep p "Particle Size Intensity Distribution") :=
    variableEntry_isSome p intensityDescriptor
  unfold buildVariables
  rw [foldl_variableEntry p VARIABLE_DESCRIPTORS []]
  simp only [List.nil_append]
  rw [found_find_x p, found_find_y p]
  cases hx : variableEntry p sizesDescriptor with
  | none =>
    have hf : isFloat64Array (findParameterDeep p "Sizes") = false := by
      rw [← hXs, hx]
      rfl
    simp [hasMandatoryVariables, hf]
  | some kvx =>
    have ht : isFloat64Array (findParameterDeep p "Sizes") = true := by
      rw [← hXs, hx]
      rfl
    cases hy : variableEntry p intensityDescriptor with
    | none =>
      have hf2 : isFloat64Array
          (findParameterDeep p "Particle Size Intensity Distribution")
          = false := by
        rw [← hYs, hy]
        rfl
      simp [hasMandatoryVariables, hf2]
    | some kvy =>
      have ht2 : isFloat64Array
          (findParameterDeep p "Particle Size Intensity Distribution")
          = true := by
        rw [← hYs, hy]
        rfl
      simp [hasMandatoryVariables, ht, ht2]

/-- Helper: the projection keeps exactly the gate-passing records. -/
theorem filterMap_length_gate :
    ∀ records : List ZmesRecord,
      (records.filterMap recordMeasurement).length
        = List.length
            (records.filter fun r => hasMandatoryVariables r.parameters) := by
  intro records
  induction records with
  | nil => rfl
  | cons r rest ih =>
    rw [List.filterMap_cons, List.filter_cons]
    cases hg : hasMandatoryVariables r.parameters with
    | false =>
      have hnone : recordMeasurement r = none := by
        have hb := (buildVariables_none_iff r.parameters).mpr hg
        simp [recordMeasurement, hb]
      rw [hnone]
      simp [ih]
    | true =>
      cases hb : buildVariables r.parameters with
      | none =>
        have := (buildVariables_none_iff r.parameters).mp hb
        rw [this] at hg
        cases hg
      | some vs =>
        simp [recordMeasurement, hb, ih]

/-- C3: the projection turns each record into at most one measurement:
a record contributes none exactly when the deep search fails to produce an
array-valued (Float64Array) parameter for the independent name Sizes or
for the primary dependent name Particle Size Intensity Distribution; when
both are array-valued the record contributes exactly one measurement
whatever the optional variables, metadata and settings lookups find, so
the projected list keeps exactly the gate-passing records. -/
theorem C3_projection_gate (f : ZmesFile) :
    toMeasurementXY f = f.records.filterMap recordMeasurement ∧
    (∀ r : ZmesRecord, recordMeasurement r = none ↔
      hasMandatoryVariables r.parameters = false) ∧
    (toMeasurementXY f).length
      = List.length
          (f.records.filter fun r => hasMandatoryVariables r.parameters) := by
  refine ⟨rfl, fun r => ?_, filterMap_length_gate f.records⟩
  unfold recordMeasurement
  rw [Option.map_eq_none']
  exact buildVariables_none_iff r.parameters
